import Mathlib

/-!
Verification development for the badminton-court availability scraper
(src/app.py, with src/main.py a near-duplicate iteration of the same
pipeline).  The pipeline has three stages: a date partitioner, a slot
fetcher, and a report formatter.  The definitions below are a shallow
embedding of the Python source: pure computations become Lean functions,
the outbound HTTP call becomes an explicit oracle `net`, and Python
exceptions become `Except String`.
-/

namespace Scrapper

/-! ### Constants (src/app.py lines 16-30) -/

def WEEKDAY_TIMES : List String :=
  ["07:00 PM", "08:00 PM", "09:00 PM", "10:00 PM", "11:00 PM"]

def WEEKEND_TIMES : List String :=
  ["11:00 AM", "12:00 PM", "01:00 PM", "02:00 PM", "03:00 PM", "04:00 PM",
   "05:00 PM", "06:00 PM", "07:00 PM", "08:00 PM", "09:00 PM", "10:00 PM"]

def EXPO_COURTS : List String :=
  ["A1", "A2", "A3", "A4", "A5", "A6", "A7", "A8", "A9", "A10",
   "B11", "B12", "B13", "B14", "B15", "B16", "B17", "B18", "B19", "B20", "B21", "B22"]

def SIMS_COURTS : List String :=
  ["P1", "P2", "P3", "P4", "P5", "P6", "P7", "P8",
   "D1", "D2", "D3", "D4", "D5", "D6", "D7", "D8"]

def FACILITY_IDS : List (String × String) :=
  [("expo", "2967"), ("sims", "2965")]

/-- `LOCATION_COURTS[location]` of the source: the court list of a known
facility, `[]` for unknown keys (the source only indexes it for known keys). -/
def LOCATION_COURTS (loc : String) : List String :=
  if loc == "expo" then EXPO_COURTS
  else if loc == "sims" then SIMS_COURTS
  else []

/-! ### Slot fetcher (src/app.py lines 32-67) -/

/-- One parsed `div.time-slot.facility-slot` element of the provider's HTML
response: the attributes and CSS classes the source reads off it.  Absent
attributes are `none` (Python `slot.get` returning `None`). -/
structure SlotElem where
  facility_name : Option String
  starttime : Option String
  isBlocked : Option String
  classes : List String
deriving DecidableEq

/-- Outcome of the single outbound GET: either a transport-level failure
(connection error / timeout, Python `requests.exceptions.RequestException`)
or an HTTP response with a status code and a parsed body. -/
inductive FetchOutcome where
  | netError (msg : String)
  | response (status : Nat) (slots : List SlotElem)
deriving DecidableEq

/-- The query parameters of the outbound GET (src/app.py lines 39-43). -/
structure HttpRequest where
  date : String
  facilitytag_id : String
  timezone : String
deriving DecidableEq

/-- `FACILITY_IDS.get(location)`: the facility identifier of a known key. -/
def facilityId (loc : String) : Option String :=
  (FACILITY_IDS.find? (fun p => p.1 == loc)).map (fun p => p.2)

/-- `not (is_blocked or blocked_class)` of the source (lines 60-62):
an element is available only if neither the `data-isBlocked` attribute is
`"1"` nor the class list holds `"blockedslot"`. -/
def slotAvailable (s : SlotElem) : Bool :=
  !(s.isBlocked == some ("1") || s.classes.contains ("blockedslot"))

/-- `court_list.setdefault(court, []).append(time)`: append `time` under
`court`, creating the entry at the end of the association list if absent.
The association list keeps Python's dict insertion order. -/
def addSlot (m : List (String × List String)) (court time : String) :
    List (String × List String) :=
  if m.any (fun p => p.1 == court) then
    m.map (fun p => if p.1 == court then (p.1, p.2 ++ [time]) else p)
  else m ++ [(court, [time])]

/-- The body of the `for slot in slots` loop (src/app.py lines 57-65):
a slot contributes iff its court is a known court of the facility, its
start-time label is allowed, and it is not blocked. -/
def stepSlot (loc : String) (allowed : List String)
    (m : List (String × List String)) (s : SlotElem) :
    List (String × List String) :=
  match s.facility_name, s.starttime with
  | some court, some time =>
    if (LOCATION_COURTS loc).contains court && allowed.contains time &&
        slotAvailable s then
      addSlot m court time
    else m
  | _, _ => m

/-- The loop condition packaged as one predicate: the exact inclusion test
the source applies to a parsed slot element. -/
def slotIncludedB (loc : String) (allowed : List String) (s : SlotElem) : Bool :=
  match s.facility_name, s.starttime with
  | some court, some time =>
    (LOCATION_COURTS loc).contains court && allowed.contains time &&
      slotAvailable s
  | _, _ => false

/-- `fetch_available_slots` (src/app.py lines 32-67).  The network is an
explicit oracle `net`.  The first component records the outbound requests
actually issued (empty for an unknown location, exactly one otherwise —
the source never retries); the second is the availability mapping.
`raise_for_status` raises `HTTPError` exactly for 4xx/5xx statuses, and the
`except` clause swallows it, returning the empty mapping.  The embedding is
a total function: no exception escapes to the caller. -/
def fetch_available_slots (date_str loc : String) (allowed_times : List String)
    (net : HttpRequest → FetchOutcome) :
    List HttpRequest × List (String × List String) :=
  match facilityId loc with
  | none => ([], [])
  | some fid =>
    let req : HttpRequest := ⟨date_str, fid, "Asia/Singapore"⟩
    match net req with
    | FetchOutcome.netError _ => ([req], [])
    | FetchOutcome.response status slots =>
      if 400 ≤ status ∧ status < 600 then ([req], [])
      else ([req], slots.foldl (stepSlot loc allowed_times) [])

/-- Lookup of a court's accumulated time list in the availability mapping
(Python `court_list[court]`, `[]` when absent). -/
def getTimes (m : List (String × List String)) (court : String) : List String :=
  match m.find? (fun p => p.1 == court) with
  | some p => p.2
  | none => []

/-! ### Time-label parsing (the `datetime.strptime(t, "%I:%M %p")` sort key,
src/app.py line 120) -/

/-- Numeric value of an ASCII digit character, `none` otherwise. -/
def digitVal (c : Char) : Option Nat :=
  if c.isDigit then some (c.toNat - 48) else none

/-- Two-digit decimal number from two characters. -/
def parse2 (a b : Char) : Option Nat :=
  match digitVal a, digitVal b with
  | some x, some y => some (10 * x + y)
  | _, _ => none

/-- Four-digit decimal number from four characters. -/
def parse4 (a b c d : Char) : Option Nat :=
  match parse2 a b, parse2 c d with
  | some x, some y => some (100 * x + y)
  | _, _ => none

/-- `datetime.strptime(t, "%I:%M %p")` reduced to its comparison key: the
minutes since midnight of an `"HH:MM AM"` / `"HH:MM PM"` label (hour 01-12,
minute 00-59; 12 AM is midnight, 12 PM is noon).  `none` models the
`ValueError` strptime raises on anything else. -/
def parseTime12 (s : String) : Option Nat :=
  match s.data with
  | [h1, h2, ':', m1, m2, ' ', p1, p2] =>
    match parse2 h1 h2, parse2 m1 m2 with
    | some h, some m =>
      if 1 ≤ h ∧ h ≤ 12 ∧ m ≤ 59 then
        match p1, p2 with
        | 'A', 'M' => some ((h % 12) * 60 + m)
        | 'P', 'M' => some ((h % 12 + 12) * 60 + m)
        | _, _ => none
      else none
    | _, _ => none
  | _ => none

/-! ### Sorting (`sorted(list, key=...)`, src/app.py line 120).
Python's `sorted` with a key is decorate-sort-undecorate with a stable
sort; an insertion sort that keeps an element after equal keys models it. -/

/-- Stable insertion of `x` into a key-sorted list. -/
def insertByKey {α : Type} (key : α → Nat) (x : α) : List α → List α
  | [] => [x]
  | y :: ys => if key x ≤ key y then x :: y :: ys else y :: insertByKey key x ys

/-- Stable sort ascending by a `Nat`-valued key. -/
def sortByKey {α : Type} (key : α → Nat) (l : List α) : List α :=
  l.foldr (insertByKey key) []

/-- Sequencing of a fallible map over a list: the embedding of a Python
loop whose body may raise (the first raise aborts the whole loop). -/
def mapME {α β : Type} (f : α → Except String β) : List α → Except String (List β)
  | [] => Except.ok []
  | x :: xs =>
    match f x with
    | Except.error e => Except.error e
    | Except.ok y =>
      match mapME f xs with
      | Except.error e => Except.error e
      | Except.ok ys => Except.ok (y :: ys)

/-- `sorted(list(unique_times), key=lambda t: datetime.strptime(t, "%I:%M %p"))`:
each label is keyed by its parsed time of day (raising on a malformed label)
and the list is sorted ascending by that key. -/
def sortedTimesE (l : List String) : Except String (List String) :=
  match mapME (fun t =>
      match parseTime12 t with
      | some k => Except.ok (k, t)
      | none => Except.error ("time data " ++ t ++ " does not match format %I:%M %p")) l with
  | Except.error e => Except.error e
  | Except.ok keyed =>
    Except.ok ((sortByKey (fun p => p.1) keyed).map (fun p => p.2))

/-! ### Calendar model (`datetime.date`, `pd.Timedelta(days=i)`,
`strftime`, src/app.py lines 75-85 and 113-120) -/

/-- A proleptic-Gregorian calendar date, the state of a Python
`datetime.date`. -/
structure Date where
  year : Nat
  month : Nat
  day : Nat
deriving DecidableEq

/-- Gregorian leap-year rule. -/
def isLeapB (y : Nat) : Bool :=
  y % 4 == 0 && (y % 100 != 0 || y % 400 == 0)

/-- Length of a month in the Gregorian calendar. -/
def daysInMonth (y m : Nat) : Nat :=
  if m = 2 then (if isLeapB y then 29 else 28)
  else if m = 4 ∨ m = 6 ∨ m = 9 ∨ m = 11 then 30
  else 31

/-- A `Date` that `datetime.date` can actually hold. -/
def ValidDate (d : Date) : Prop :=
  1 ≤ d.month ∧ d.month ≤ 12 ∧ 1 ≤ d.day ∧ d.day ≤ daysInMonth d.year d.month

instance (d : Date) : Decidable (ValidDate d) := by
  unfold ValidDate; infer_instance

/-- The calendar successor of a date: one day later. -/
def nextDay (d : Date) : Date :=
  if d.day < daysInMonth d.year d.month then ⟨d.year, d.month, d.day + 1⟩
  else if d.month < 12 then ⟨d.year, d.month + 1, 1⟩
  else ⟨d.year + 1, 1, 1⟩

/-- `today + pd.Timedelta(days=n)`: calendar addition of `n` days. -/
def addDays (d : Date) : Nat → Date
  | 0 => d
  | n + 1 => nextDay (addDays d n)

/-- Days of the year strictly before month `m`. -/
def daysBeforeMonth (y m : Nat) : Nat :=
  ((List.range' 1 (m - 1)).map (fun k => daysInMonth y k)).sum

/-- `date.toordinal()`: day number with 0001-01-01 as day 1. -/
def toOrdinal (d : Date) : Nat :=
  365 * (d.year - 1) + (d.year - 1) / 4 - (d.year - 1) / 100 + (d.year - 1) / 400 +
    daysBeforeMonth d.year d.month + d.day

/-- `date.weekday()`: Monday is 0, Sunday is 6 (0001-01-01 was a Monday). -/
def weekday (d : Date) : Nat :=
  (toOrdinal d + 6) % 7

/-- Strict calendar order on dates. -/
def dateLt (a b : Date) : Prop :=
  a.year < b.year ∨ (a.year = b.year ∧
    (a.month < b.month ∨ (a.month = b.month ∧ a.day < b.day)))

/-! ### Decimal rendering (`strftime`) -/

/-- `w`-character zero-padded decimal rendering of `n`, most significant
digit first. -/
def padNum : Nat → Nat → List Char
  | 0, _ => []
  | w + 1, n => Nat.digitChar (n / 10 ^ w) :: padNum w (n % 10 ^ w)

/-- `the_date.strftime('%Y-%m-%d')` (src/app.py line 81). -/
def isoChars (d : Date) : List Char :=
  padNum 4 d.year ++ '-' :: (padNum 2 d.month ++ '-' :: padNum 2 d.day)

/-- The ISO date string of a date. -/
def toISO (d : Date) : String :=
  String.mk (isoChars d)

def MONTH_ABBRS : List String :=
  ["Jan", "Feb", "Mar", "Apr", "May", "Jun",
   "Jul", "Aug", "Sep", "Oct", "Nov", "Dec"]

def DAY_ABBRS : List String :=
  ["Mon", "Tue", "Wed", "Thu", "Fri", "Sat", "Sun"]

/-- `date_obj.strftime("%d %b %Y (%a)")` (src/app.py line 115). -/
def renderDate (d : Date) : String :=
  String.mk (padNum 2 d.day) ++ " " ++ MONTH_ABBRS.getD (d.month - 1) ("???") ++
    " " ++ String.mk (padNum 4 d.year) ++ " (" ++
    DAY_ABBRS.getD (weekday d) ("???") ++ ")"

/-- Lexicographic strict order on character lists by code point: the order
Python uses to compare strings. -/
def lexLtB : List Char → List Char → Bool
  | [], [] => false
  | [], _ :: _ => true
  | _ :: _, [] => false
  | a :: as, b :: bs => if a < b then true else if a = b then lexLtB as bs else false

/-! ### Date partitioner (src/app.py lines 75-85) -/

/-- One iteration of the `for i in range(1, 8)` loop (src/app.py lines
79-85): compute `today + Timedelta(days=i)`, render it, and append it to
the weekend bucket when `weekday() >= 5`, to the weekday bucket otherwise. -/
def partitionStep (today : Date) (acc : List String × List String) (i : Nat) :
    List String × List String :=
  let d := addDays today i
  let ds := toISO d
  if 5 ≤ weekday d then (acc.1, acc.2 ++ [ds]) else (acc.1 ++ [ds], acc.2)

/-- The `for i in range(1, 8)` loop: the 7 dates strictly after `today`,
rendered as ISO strings and split into (weekdays, weekends). -/
def partitionDates (today : Date) : List String × List String :=
  (List.range' 1 7).foldl (partitionStep today) ([], [])

/-! ### Report formatter (src/app.py lines 103-190) -/

/-- `datetime.strptime(date_str, "%Y-%m-%d")` (src/app.py line 114):
parses a `YYYY-MM-DD` string, validating month and day ranges against the
calendar; the error is the `ValueError` text. -/
def parseISO (s : String) : Except String Date :=
  match s.data with
  | [y1, y2, y3, y4, '-', m1, m2, '-', d1, d2] =>
    match parse4 y1 y2 y3 y4, parse2 m1 m2, parse2 d1 d2 with
    | some y, some m, some d =>
      if 1 ≤ m ∧ m ≤ 12 ∧ 1 ≤ d ∧ d ≤ daysInMonth y m then Except.ok ⟨y, m, d⟩
      else Except.error ("time data " ++ s ++ " does not match format %Y-%m-%d")
    | _, _, _ => Except.error ("time data " ++ s ++ " does not match format %Y-%m-%d")
  | _ => Except.error ("time data " ++ s ++ " does not match format %Y-%m-%d")

/-- The `unique_times` set of a date (src/app.py lines 117-119), collected
over all courts.  Python's `set` has no specified order; the embedding
keeps first occurrences, the subsequent key-sort fixing the report order. -/
def uniqueTimes (m : List (String × List String)) : List String :=
  ((m.map (fun p => p.2)).flatten).foldl
    (fun acc t => if acc.contains t then acc else acc ++ [t]) []

/-- `", ".join(parts)` / `"n".join(parts)`. -/
def joinSep (sep : String) : List String → String
  | [] => ""
  | [x] => x
  | x :: y :: xs => x ++ sep ++ joinSep sep (y :: xs)

/-- One iteration of the per-date report loop (src/app.py lines 113-128):
parse the date, compute the distinct times and their chronologically
sorted list, then emit either the available-timeslots line or the
no-timeslots line.  (The literal `n` characters come straight from the
source, whose f-strings spell `n` where `\n` was intended.) -/
def formatDateEntry (date_str : String)
    (courts_data : List (String × List String)) : Except String String :=
  match parseISO date_str with
  | Except.error e => Except.error e
  | Except.ok dateObj =>
    let fd := renderDate dateObj
    let ut := uniqueTimes courts_data
    match sortedTimesE ut with
    | Except.error e => Except.error e
    | Except.ok st =>
      if ut.isEmpty then
        Except.ok ("n❌ **" ++ fd ++ "**: No timeslots found.")
      else
        Except.ok ("n✅ **" ++ fd ++ "**: Available timeslots: " ++ joinSep (", ") st)

/-- One facility section of the report: the per-date lines, in the order
the dates were fetched (dict insertion order). -/
def sectionEntries (dayData : List (String × List (String × List String))) :
    Except String (List String) :=
  mapME (fun p => formatDateEntry p.1 p.2) dayData

/-- The availability mapping a fetch leaves in the data dictionaries. -/
def fetchMap (ds loc : String) (allowed : List String)
    (net : HttpRequest → FetchOutcome) : List (String × List String) :=
  (fetch_available_slots ds loc allowed net).2

/-- The body of `generate_report`'s `try` block (src/app.py lines 75-190):
partition the dates, fetch all 14 (date, facility) pairs, and assemble the
output parts.  `nowStr` stands for the `datetime.now().strftime(...)`
header timestamp.  An `Except.error` is a Python exception propagating to
the top-level handler. -/
def reportBody (today : Date) (nowStr : String)
    (net : HttpRequest → FetchOutcome) : Except String String :=
  let wd := (partitionDates today).1
  let we := (partitionDates today).2
  let expoWd := wd.map (fun day => (day, fetchMap day ("expo") WEEKDAY_TIMES net))
  let simsWd := wd.map (fun day => (day, fetchMap day ("sims") WEEKDAY_TIMES net))
  let expoWe := we.map (fun day => (day, fetchMap day ("expo") WEEKEND_TIMES net))
  let simsWe := we.map (fun day => (day, fetchMap day ("sims") WEEKEND_TIMES net))
  match sectionEntries expoWd with
  | Except.error e => Except.error e
  | Except.ok l1 =>
    match sectionEntries simsWd with
    | Except.error e => Except.error e
    | Except.ok l2 =>
      match sectionEntries expoWe with
      | Except.error e => Except.error e
      | Except.ok l3 =>
        match sectionEntries simsWe with
        | Except.error e => Except.error e
        | Except.ok l4 =>
          Except.ok (joinSep ("n")
            (["🏸 **Badminton Court Availability (Next 7 Days)** 🏸n",
              "*(Data as of " ++ nowStr ++ ")*n",
              "n--- **Weekdays (7 PM - 11 PM)** ---n",
              "n**Expo Courts:**"] ++ l1 ++
             ["n**Sims Courts:**"] ++ l2 ++
             ["n--- **Weekends (11 AM - 10 PM)** ---n",
              "n**Expo Courts:**"] ++ l3 ++
             ["n**Sims Courts:**"] ++ l4))

/-- The JSON object `generate_report` returns: a message and an image that
stays `None` (plot generation was omitted, src/app.py line 185). -/
structure ResultObj where
  message : String
  image : Option String
deriving DecidableEq

/-- `generate_report` (src/app.py lines 69-198): the whole body runs under
one `try`; any exception is converted to a result whose message wraps the
exception text, with a `None` image, on the normal return path. -/
def generate_report (today : Date) (nowStr : String)
    (net : HttpRequest → FetchOutcome) : ResultObj :=
  match reportBody today nowStr net with
  | Except.ok msg => ⟨msg, none⟩
  | Except.error e =>
    ⟨"An unexpected error occurred: " ++ e ++ "nnPlease check the logs.", none⟩

/-- The `/execute` endpoint (src/app.py lines 201-212): `jsonify(result)`
with Flask's default status code 200 on every path. -/
def handle_execute (today : Date) (nowStr : String)
    (net : HttpRequest → FetchOutcome) : ResultObj × Nat :=
  (generate_report today nowStr net, 200)

/-! ### Substring occurrence (used to state what a report line does and
does not contain) -/

/-- `sub` is an initial run of `l`. -/
def startsWithB : List Char → List Char → Bool
  | [], _ => true
  | _ :: _, [] => false
  | a :: as, b :: bs => a == b && startsWithB as bs

/-- `sub` occurs contiguously somewhere in the second list (Python
`sub in s` on strings). -/
def containsRunB (sub : List Char) : List Char → Bool
  | [] => startsWithB sub []
  | c :: cs => startsWithB sub (c :: cs) || containsRunB sub cs

/-! ## Helper lemmas -/

theorem startsWithB_self_append (s t : List Char) : startsWithB s (s ++ t) = true := by
  induction s with
  | nil => rfl
  | cons a as ih => simp [startsWithB, ih]

theorem containsRunB_of_startsWithB (s rest : List Char)
    (h : startsWithB s rest = true) : containsRunB s rest = true := by
  cases rest with
  | nil => exact h
  | cons c cs => simp [containsRunB, h]

theorem containsRunB_append_left (s : List Char) :
    ∀ p rest, containsRunB s rest = true → containsRunB s (p ++ rest) = true := by
  intro p
  induction p with
  | nil => intro rest h; simpa using h
  | cons c cs ih =>
    intro rest h
    simp only [List.cons_append, containsRunB, Bool.or_eq_true]
    exact Or.inr (ih rest h)

theorem data_append (s t : String) : (s ++ t).data = s.data ++ t.data := rfl

theorem containsRunB_sandwich (p mid q : String) :
    containsRunB mid.data (p ++ mid ++ q).data = true := by
  have h1 : (p ++ mid ++ q).data = p.data ++ (mid.data ++ q.data) := by
    rw [data_append, data_append, List.append_assoc]
  rw [h1]
  exact containsRunB_append_left _ _ _
    (containsRunB_of_startsWithB _ _ (startsWithB_self_append _ _))

theorem getTimes_addSlot (m : List (String × List String)) (c0 t0 c : String) :
    getTimes (addSlot m c0 t0) c =
      if c = c0 then getTimes m c ++ [t0] else getTimes m c := by
  by_cases hany : m.any (fun p => p.1 == c0) = true
  · have hf : (fun (p : String × List String) =>
        ((if p.1 == c0 then (p.1, p.2 ++ [t0]) else p).1 == c)) =
        fun p => p.1 == c := by
      funext p
      by_cases h : p.1 == c0 <;> simp [h]
    unfold addSlot getTimes
    rw [if_pos hany, List.find?_map]
    have hcomp : ((fun (p : String × List String) => p.1 == c) ∘
        (fun p => if p.1 == c0 then (p.1, p.2 ++ [t0]) else p)) =
        fun (p : String × List String) => p.1 == c := hf
    rw [hcomp]
    cases hfind : m.find? (fun p => p.1 == c) with
    | none =>
      by_cases hc : c = c0
      · subst hc
        rcases List.any_eq_true.mp hany with ⟨x, hx, hx2⟩
        exact absurd hx2 (List.find?_eq_none.mp hfind x hx)
      · simp [hc]
    | some q =>
      have hq := List.find?_some hfind
      have hqc : q.1 = c := by simpa using hq
      by_cases hc : c = c0
      · subst hc
        simp [hqc]
      · simp [hqc, hc]
  · unfold addSlot getTimes
    rw [if_neg hany, List.find?_append]
    cases hfind : m.find? (fun p => p.1 == c) with
    | none =>
      by_cases hc : c = c0
      · subst hc
        simp [List.find?]
      · have : ((c0, [t0]).1 == c) = false := by
          rw [beq_eq_false_iff_ne]
          exact fun h => hc h.symm
        simp [List.find?, this, hc]
    | some q =>
      have hq0 := List.find?_some hfind
      have hq : q.1 = c := by simpa using hq0
      have hmem : q ∈ m := List.mem_of_find?_eq_some hfind
      by_cases hc : c = c0
      · subst hc
        exact absurd (List.any_eq_true.mpr ⟨q, hmem, by simp [hq]⟩) hany
      · simp [hc]

theorem mem_getTimes_stepSlot (loc : String) (allowed : List String)
    (m : List (String × List String)) (s : SlotElem) (c t : String) :
    t ∈ getTimes (stepSlot loc allowed m s) c ↔
      t ∈ getTimes m c ∨ (s.facility_name = some c ∧ s.starttime = some t ∧
        slotIncludedB loc allowed s = true) := by
  obtain ⟨fn, st, bl, cl⟩ := s
  cases fn with
  | none => simp [stepSlot, slotIncludedB]
  | some court =>
    cases st with
    | none => simp [stepSlot, slotIncludedB]
    | some time =>
      by_cases hcond : ((LOCATION_COURTS loc).contains court &&
          allowed.contains time && slotAvailable ⟨some court, some time, bl, cl⟩) = true
      · have hstep : stepSlot loc allowed m ⟨some court, some time, bl, cl⟩ =
            addSlot m court time := by
          simp only [stepSlot]
          rw [if_pos hcond]
        have hinc : slotIncludedB loc allowed ⟨some court, some time, bl, cl⟩ = true := by
          simp only [slotIncludedB]
          exact hcond
        rw [hstep, getTimes_addSlot]
        by_cases hc : c = court
        · subst hc
          simp [hinc, List.mem_append]
          constructor
          · rintro (h | h)
            · exact Or.inl h
            · exact Or.inr h.symm
          · rintro (h | h)
            · exact Or.inl h
            · exact Or.inr h.symm
        · have : (some court = some c) = False := by
            simp
            exact fun h => hc h.symm
          simp [hc, this]
      · have hstep : stepSlot loc allowed m ⟨some court, some time, bl, cl⟩ = m := by
          simp only [stepSlot]
          rw [if_neg hcond]
        have hinc : slotIncludedB loc allowed ⟨some court, some time, bl, cl⟩ = false := by
          simp only [slotIncludedB]
          exact Bool.eq_false_iff.mpr hcond
        simp [hstep, hinc]

theorem mem_getTimes_foldl (loc : String) (allowed : List String)
    (slots : List SlotElem) (c t : String) :
    ∀ m, t ∈ getTimes (slots.foldl (stepSlot loc allowed) m) c ↔
      t ∈ getTimes m c ∨ ∃ s ∈ slots, s.facility_name = some c ∧
        s.starttime = some t ∧ slotIncludedB loc allowed s = true := by
  induction slots with
  | nil => intro m; simp
  | cons s ss ih =>
    intro m
    rw [List.foldl_cons, ih, mem_getTimes_stepSlot]
    simp [or_assoc]

theorem slotIncludedB_iff (loc : String) (allowed : List String) (c t : String)
    (bl : Option String) (cl : List String) :
    slotIncludedB loc allowed ⟨some c, some t, bl, cl⟩ = true ↔
      c ∈ LOCATION_COURTS loc ∧ t ∈ allowed ∧ bl ≠ some ("1") ∧
        ("blockedslot" : String) ∉ cl := by
  simp [slotIncludedB, slotAvailable, and_assoc]

theorem stepSlot_eq_of_excluded (loc : String) (allowed : List String)
    (m : List (String × List String)) (s : SlotElem)
    (h : slotIncludedB loc allowed s = false) :
    stepSlot loc allowed m s = m := by
  obtain ⟨fn, st, bl, cl⟩ := s
  cases fn with
  | none => simp [stepSlot]
  | some court =>
    cases st with
    | none => simp [stepSlot]
    | some time =>
      simp only [slotIncludedB] at h
      simp only [stepSlot]
      have hne : ¬(((LOCATION_COURTS loc).contains court && allowed.contains time &&
          slotAvailable ⟨some court, some time, bl, cl⟩) = true) := by
        rw [h]
        exact Bool.false_ne_true
      rw [if_neg hne]

theorem foldl_stepSlot_id (loc : String) (allowed : List String)
    (slots : List SlotElem)
    (h : ∀ s ∈ slots, slotIncludedB loc allowed s = false) :
    ∀ m, slots.foldl (stepSlot loc allowed) m = m := by
  induction slots with
  | nil => intro m; rfl
  | cons s ss ih =>
    intro m
    rw [List.foldl_cons, stepSlot_eq_of_excluded loc allowed m s (h s (by simp))]
    exact ih (fun x hx => h x (by simp [hx])) m

theorem mem_insertByKey {α : Type} (key : α → Nat) (x y : α) :
    ∀ l, y ∈ insertByKey key x l ↔ y = x ∨ y ∈ l := by
  intro l
  induction l with
  | nil => simp [insertByKey]
  | cons z zs ih =>
    simp only [insertByKey]
    by_cases h : key x ≤ key z
    · simp [h]
    · rw [if_neg h]
      simp only [List.mem_cons, ih]
      tauto

theorem pairwise_insertByKey {α : Type} (key : α → Nat) (x : α) :
    ∀ l, l.Pairwise (fun a b => key a ≤ key b) →
      (insertByKey key x l).Pairwise (fun a b => key a ≤ key b) := by
  intro l
  induction l with
  | nil => intro h; simp [insertByKey]
  | cons z zs ih =>
    intro hp
    rw [List.pairwise_cons] at hp
    obtain ⟨hz, hzs⟩ := hp
    simp only [insertByKey]
    by_cases h : key x ≤ key z
    · rw [if_pos h]
      refine List.Pairwise.cons ?_ (List.Pairwise.cons hz hzs)
      intro b hb
      rcases List.mem_cons.mp hb with rfl | hb2
      · exact h
      · exact le_trans h (hz b hb2)
    · rw [if_neg h]
      refine List.Pairwise.cons ?_ (ih hzs)
      intro b hb
      rcases (mem_insertByKey key x b zs).mp hb with rfl | hb2
      · omega
      · exact hz b hb2

theorem pairwise_sortByKey {α : Type} (key : α → Nat) (l : List α) :
    (sortByKey key l).Pairwise (fun a b => key a ≤ key b) := by
  induction l with
  | nil => simp [sortByKey]
  | cons x xs ih => exact pairwise_insertByKey key x _ ih

theorem mem_sortByKey {α : Type} (key : α → Nat) (y : α) (l : List α) :
    y ∈ sortByKey key l ↔ y ∈ l := by
  induction l with
  | nil => simp [sortByKey]
  | cons x xs ih =>
    show y ∈ insertByKey key x (sortByKey key xs) ↔ _
    rw [mem_insertByKey, ih]
    simp

theorem mapME_timeKey_ok (l : List String)
    (h : ∀ t ∈ l, (parseTime12 t).isSome = true) :
    ∃ keyed, mapME (fun t => match parseTime12 t with
        | some k => Except.ok (k, t)
        | none => Except.error ("time data " ++ t ++ " does not match format %I:%M %p"))
        l = Except.ok keyed ∧
      ∀ p ∈ keyed, parseTime12 p.2 = some p.1 := by
  induction l with
  | nil => exact ⟨[], rfl, by simp⟩
  | cons t ts ih =>
    have ht := h t (by simp)
    obtain ⟨k, hk⟩ := Option.isSome_iff_exists.mp ht
    obtain ⟨keyed, hkeyed, hall⟩ := ih (fun x hx => h x (by simp [hx]))
    refine ⟨(k, t) :: keyed, ?_, ?_⟩
    · simp only [mapME, hk, hkeyed]
    · intro p hp
      rcases List.mem_cons.mp hp with rfl | hp2
      · simpa using hk
      · exact hall p hp2

/-- If every label parses, `sortedTimesE` succeeds and its output is
ordered ascending by the parsed time of day. -/
theorem sortedTimesE_ok_of_parse (l : List String)
    (h : ∀ t ∈ l, (parseTime12 t).isSome = true) :
    ∃ st, sortedTimesE l = Except.ok st ∧
      st.Pairwise (fun a b => ∀ ka kb, parseTime12 a = some ka →
        parseTime12 b = some kb → ka ≤ kb) := by
  obtain ⟨keyed, hkeyed, hall⟩ := mapME_timeKey_ok l h
  refine ⟨(sortByKey (fun p => p.1) keyed).map (fun p => p.2), ?_, ?_⟩
  · unfold sortedTimesE
    rw [hkeyed]
  · rw [List.pairwise_map]
    have hsorted := pairwise_sortByKey (fun p => p.1) keyed
    refine hsorted.imp_of_mem ?_
    intro p q hp hq hle ka kb hka hkb
    have hp2 := hall p ((mem_sortByKey _ _ _).mp hp)
    have hq2 := hall q ((mem_sortByKey _ _ _).mp hq)
    have e1 : p.1 = ka := Option.some.inj (hp2.symm.trans hka)
    have e2 : q.1 = kb := Option.some.inj (hq2.symm.trans hkb)
    rw [← e1, ← e2]
    exact hle

theorem lexLtB_irrefl : ∀ l, lexLtB l l = false := by
  intro l
  induction l with
  | nil => rfl
  | cons a as ih => simp [lexLtB, ih, lt_irrefl]

theorem length_padNum : ∀ w n, (padNum w n).length = w := by
  intro w
  induction w with
  | zero => intro n; rfl
  | succ w ih => intro n; simp [padNum, ih]

theorem digitChar_lt_iff :
    ∀ a, a < 10 → ∀ b, b < 10 → (Nat.digitChar a < Nat.digitChar b ↔ a < b) := by
  decide

theorem digitChar_inj_iff :
    ∀ a, a < 10 → ∀ b, b < 10 → (Nat.digitChar a = Nat.digitChar b ↔ a = b) := by
  decide

theorem lexLtB_padNum :
    ∀ w a b, a < 10 ^ w → b < 10 ^ w →
      (lexLtB (padNum w a) (padNum w b) = true ↔ a < b) := by
  intro w
  induction w with
  | zero =>
    intro a b ha hb
    have ha0 : a = 0 := by omega
    have hb0 : b = 0 := by omega
    subst ha0 hb0
    simp [padNum, lexLtB]
  | succ w ih =>
    intro a b ha hb
    have hP : 0 < 10 ^ w := pow_pos (by norm_num) w
    have ha' : a < 10 * 10 ^ w := by
      have : (10 : Nat) ^ (w + 1) = 10 ^ w * 10 := pow_succ 10 w
      omega
    have hb' : b < 10 * 10 ^ w := by
      have : (10 : Nat) ^ (w + 1) = 10 ^ w * 10 := pow_succ 10 w
      omega
    have hda : a / 10 ^ w < 10 := (Nat.div_lt_iff_lt_mul hP).mpr (by omega)
    have hdb : b / 10 ^ w < 10 := (Nat.div_lt_iff_lt_mul hP).mpr (by omega)
    simp only [padNum, lexLtB]
    by_cases h1 : Nat.digitChar (a / 10 ^ w) < Nat.digitChar (b / 10 ^ w)
    · rw [if_pos h1]
      have hq : a / 10 ^ w < b / 10 ^ w := (digitChar_lt_iff _ hda _ hdb).mp h1
      constructor
      · intro _
        by_contra hab
        push_neg at hab
        have h9 : b / 10 ^ w ≤ a / 10 ^ w := Nat.div_le_div_right hab
        omega
      · intro _
        rfl
    · rw [if_neg h1]
      by_cases h2 : Nat.digitChar (a / 10 ^ w) = Nat.digitChar (b / 10 ^ w)
      · rw [if_pos h2]
        have hdd : a / 10 ^ w = b / 10 ^ w := (digitChar_inj_iff _ hda _ hdb).mp h2
        rw [ih (a % 10 ^ w) (b % 10 ^ w) (Nat.mod_lt _ hP) (Nat.mod_lt _ hP)]
        have ea : 10 ^ w * (a / 10 ^ w) + a % 10 ^ w = a := Nat.div_add_mod a _
        have eb : 10 ^ w * (b / 10 ^ w) + b % 10 ^ w = b := Nat.div_add_mod b _
        constructor
        · intro hlt
          have h3 : 10 ^ w * (a / 10 ^ w) + a % 10 ^ w <
              10 ^ w * (b / 10 ^ w) + b % 10 ^ w := by
            rw [hdd]
            exact Nat.add_lt_add_left hlt _
          rw [ea, eb] at h3
          exact h3
        · intro hab
          have h3 : 10 ^ w * (a / 10 ^ w) + a % 10 ^ w <
              10 ^ w * (b / 10 ^ w) + b % 10 ^ w := by
            rw [ea, eb]
            exact hab
          rw [hdd] at h3
          exact Nat.lt_of_add_lt_add_left h3
      · rw [if_neg h2]
        have hgt : b / 10 ^ w < a / 10 ^ w := by
          rcases Nat.lt_trichotomy (a / 10 ^ w) (b / 10 ^ w) with h | h | h
          · exact absurd ((digitChar_lt_iff _ hda _ hdb).mpr h) h1
          · exact absurd ((digitChar_inj_iff _ hda _ hdb).mpr h) h2
          · exact h
        simp only [Bool.false_eq_true, false_iff]
        intro hab
        have h9 : a / 10 ^ w ≤ b / 10 ^ w := Nat.div_le_div_right (Nat.le_of_lt hab)
        omega

theorem lexLtB_append :
    ∀ (a b x y : List Char), a.length = b.length →
      (lexLtB (a ++ x) (b ++ y) = true ↔
        lexLtB a b = true ∨ (a = b ∧ lexLtB x y = true)) := by
  intro a
  induction a with
  | nil =>
    intro b x y hlen
    have hb : b = [] := by
      cases b with
      | nil => rfl
      | cons d ds => simp at hlen
    subst hb
    simp [lexLtB]
  | cons c cs ih =>
    intro b x y hlen
    cases b with
    | nil => simp at hlen
    | cons d ds =>
      simp only [List.cons_append, lexLtB]
      by_cases h1 : c < d
      · simp [h1]
      · rw [if_neg h1, if_neg h1]
        by_cases h2 : c = d
        · rw [if_pos h2, if_pos h2]
          simp only [List.append_eq]
          rw [ih ds x y (by simpa using hlen)]
          simp [h2]
        · rw [if_neg h2, if_neg h2]
          simp [h2]

theorem daysInMonth_pos (y m : Nat) : 1 ≤ daysInMonth y m := by
  unfold daysInMonth
  split_ifs <;> omega

theorem daysInMonth_le_31 (y m : Nat) : daysInMonth y m ≤ 31 := by
  unfold daysInMonth
  split_ifs <;> omega

theorem daysInMonth_jan (y : Nat) : daysInMonth y 1 = 31 := by
  simp [daysInMonth]

theorem nextDay_valid (d : Date) (h : ValidDate d) : ValidDate (nextDay d) := by
  obtain ⟨h1, h2, h3, h4⟩ := h
  unfold nextDay
  split_ifs with hd hm
  · unfold ValidDate
    dsimp only
    exact ⟨h1, h2, by omega, hd⟩
  · unfold ValidDate
    dsimp only
    exact ⟨by omega, hm, le_refl 1, daysInMonth_pos _ _⟩
  · unfold ValidDate
    dsimp only
    refine ⟨le_refl 1, by omega, le_refl 1, ?_⟩
    rw [daysInMonth_jan]
    omega

theorem nextDay_dateLt (d : Date) : dateLt d (nextDay d) := by
  unfold nextDay
  split_ifs with hd hm
  · unfold dateLt
    dsimp only
    omega
  · unfold dateLt
    dsimp only
    omega
  · unfold dateLt
    dsimp only
    omega

theorem dateLt_trans {a b c : Date} (h1 : dateLt a b) (h2 : dateLt b c) :
    dateLt a c := by
  unfold dateLt at h1 h2 ⊢
  omega

theorem addDays_add (d : Date) (a b : Nat) :
    addDays d (a + b) = addDays (addDays d a) b := by
  induction b with
  | zero => rfl
  | succ b ih =>
    rw [Nat.add_succ]
    show nextDay (addDays d (a + b)) = nextDay (addDays (addDays d a) b)
    exact congrArg nextDay ih

theorem addDays_valid (d : Date) (h : ValidDate d) :
    ∀ n, ValidDate (addDays d n) := by
  intro n
  induction n with
  | zero => exact h
  | succ n ih => exact nextDay_valid _ ih

theorem addDays_dateLt (d : Date) : ∀ n, 0 < n → dateLt d (addDays d n) := by
  intro n
  induction n with
  | zero => intro hcon; exact absurd hcon (Nat.lt_irrefl 0)
  | succ n ih =>
    intro _
    cases Nat.eq_zero_or_pos n with
    | inl h0 =>
      subst h0
      exact nextDay_dateLt d
    | inr hpos => exact dateLt_trans (ih hpos) (nextDay_dateLt _)

theorem addDays_strictMono (d : Date) (i j : Nat) (hij : i < j) :
    dateLt (addDays d i) (addDays d j) := by
  have hj : j = i + (j - i) := by omega
  rw [hj, addDays_add]
  exact addDays_dateLt (addDays d i) _ (by omega)

theorem nextDay_year (d : Date) :
    (nextDay d).year = d.year ∨ nextDay d = ⟨d.year + 1, 1, 1⟩ := by
  unfold nextDay
  split_ifs
  · exact Or.inl rfl
  · exact Or.inl rfl
  · exact Or.inr rfl

theorem addDays_jan (y : Nat) :
    ∀ j dd, 1 ≤ dd → dd + j ≤ 31 → addDays ⟨y, 1, dd⟩ j = ⟨y, 1, dd + j⟩ := by
  intro j
  induction j with
  | zero => intro dd h1 h2; rfl
  | succ j ih =>
    intro dd h1 h2
    show nextDay (addDays ⟨y, 1, dd⟩ j) = _
    rw [ih dd h1 (by omega)]
    unfold nextDay
    have hcond : (⟨y, 1, dd + j⟩ : Date).day < daysInMonth y 1 := by
      rw [daysInMonth_jan]
      show dd + j < 31
      omega
    rw [if_pos hcond]
    rfl

theorem addDays_year_le (d : Date) (_h : ValidDate d) :
    ∀ i, i ≤ 7 → (addDays d i).year ≤ d.year + 1 := by
  have key : ∀ i, i ≤ 7 → (addDays d i).year = d.year ∨
      ∃ k, k ≤ i ∧ addDays d k = ⟨d.year + 1, 1, 1⟩ := by
    intro i
    induction i with
    | zero => intro _; exact Or.inl rfl
    | succ i ih =>
      intro hi
      rcases ih (by omega) with hy | ⟨k, hk, he⟩
      · rcases nextDay_year (addDays d i) with h2 | h2
        · left
          show (nextDay (addDays d i)).year = d.year
          rw [h2, hy]
        · right
          refine ⟨i + 1, le_refl _, ?_⟩
          show nextDay (addDays d i) = _
          rw [h2, hy]
      · exact Or.inr ⟨k, by omega, he⟩
  intro i hi
  rcases key i hi with hy | ⟨k, hk, he⟩
  · omega
  · have hsplit : addDays d i = addDays (addDays d k) (i - k) := by
      rw [← addDays_add]
      congr 1
      omega
    rw [hsplit, he, addDays_jan (d.year + 1) (i - k) 1 (le_refl 1) (by omega)]

theorem lexLtB_cons_same (c : Char) (x y : List Char) :
    lexLtB (c :: x) (c :: y) = lexLtB x y := by
  simp [lexLtB, lt_irrefl]

theorem isoLt_of_dateLt (a b : Date)
    (hva : ValidDate a) (hvb : ValidDate b)
    (hya : a.year < 10000) (hyb : b.year < 10000)
    (h : dateLt a b) : lexLtB (isoChars a) (isoChars b) = true := by
  have h4 : (10 : Nat) ^ 4 = 10000 := by norm_num
  have h100 : (10 : Nat) ^ 2 = 100 := by norm_num
  obtain ⟨ha1, ha2, ha3, ha4⟩ := hva
  obtain ⟨hb1, hb2, hb3, hb4⟩ := hvb
  have hma : a.month < 100 := by omega
  have hmb : b.month < 100 := by omega
  have hda : a.day < 100 := by
    have := daysInMonth_le_31 a.year a.month
    omega
  have hdb : b.day < 100 := by
    have := daysInMonth_le_31 b.year b.month
    omega
  unfold isoChars
  rw [lexLtB_append _ _ _ _ (by rw [length_padNum, length_padNum])]
  rcases h with hy | ⟨hy, hrest⟩
  · exact Or.inl ((lexLtB_padNum 4 a.year b.year (by omega) (by omega)).mpr hy)
  · refine Or.inr ⟨by rw [hy], ?_⟩
    rw [lexLtB_cons_same]
    rw [lexLtB_append _ _ _ _ (by rw [length_padNum, length_padNum])]
    rcases hrest with hm | ⟨hm, hd⟩
    · exact Or.inl ((lexLtB_padNum 2 a.month b.month (by omega) (by omega)).mpr hm)
    · refine Or.inr ⟨by rw [hm], ?_⟩
      rw [lexLtB_cons_same]
      exact (lexLtB_padNum 2 a.day b.day (by omega) (by omega)).mpr hd

theorem toISO_ne_of_dateLt (a b : Date)
    (hva : ValidDate a) (hvb : ValidDate b)
    (hya : a.year < 10000) (hyb : b.year < 10000)
    (h : dateLt a b) : toISO a ≠ toISO b := by
  intro he
  have h1 := isoLt_of_dateLt a b hva hvb hya hyb h
  have h2 : isoChars a = isoChars b := congrArg String.data he
  rw [h2, lexLtB_irrefl] at h1
  exact Bool.false_ne_true h1

theorem partition_foldl_closed (today : Date) :
    ∀ (is : List Nat) (wd we : List String),
      is.foldl (partitionStep today) (wd, we) =
      (wd ++ (is.filter (fun i => !decide (5 ≤ weekday (addDays today i)))).map
          (fun i => toISO (addDays today i)),
       we ++ (is.filter (fun i => decide (5 ≤ weekday (addDays today i)))).map
          (fun i => toISO (addDays today i))) := by
  intro is
  induction is with
  | nil =>
    intro wd we
    simp
  | cons i is ih =>
    intro wd we
    rw [List.foldl_cons]
    by_cases h : 5 ≤ weekday (addDays today i)
    · have hstep : partitionStep today (wd, we) i =
          (wd, we ++ [toISO (addDays today i)]) := by
        unfold partitionStep
        dsimp only
        rw [if_pos h]
      rw [hstep, ih]
      simp [h, List.filter_cons]
    · have hstep : partitionStep today (wd, we) i =
          (wd ++ [toISO (addDays today i)], we) := by
        unfold partitionStep
        dsimp only
        rw [if_neg h]
      rw [hstep, ih]
      simp [h, List.filter_cons]

theorem partitionDates_eq (today : Date) :
    partitionDates today =
      (((List.range' 1 7).filter
          (fun i => !decide (5 ≤ weekday (addDays today i)))).map
        (fun i => toISO (addDays today i)),
       ((List.range' 1 7).filter
          (fun i => decide (5 ≤ weekday (addDays today i)))).map
        (fun i => toISO (addDays today i))) := by
  unfold partitionDates
  rw [partition_foldl_closed]
  simp

theorem filter_map_perm {α β : Type} (f : α → β) (p : α → Bool) (l : List α) :
    ((l.filter (fun x => !p x)).map f ++ (l.filter p).map f).Perm (l.map f) := by
  induction l with
  | nil => simp
  | cons a as ih =>
    by_cases h : p a = true
    · simp [List.filter_cons, h]
      exact List.Perm.trans List.perm_middle (List.Perm.cons _ ih)
    · have h2 : p a = false := by
        cases hp : p a
        · rfl
        · exact absurd hp h
      simp [List.filter_cons, h2]
      exact ih

theorem weekday_lt_7 (d : Date) : weekday d < 7 :=
  Nat.mod_lt _ (by norm_num)

/-! ## Claims -/

/-- C10: for every date string and allowed-times set, calling
`fetch_available_slots` with a location other than the two known facility
keys `"expo"` and `"sims"` returns the empty availability mapping without
issuing any outbound HTTP request (src/app.py lines 36-37). -/
theorem C10_unknown_location_no_request (ds : String) (allowed : List String)
    (net : HttpRequest → FetchOutcome) (loc : String)
    (h1 : loc ≠ "expo") (h2 : loc ≠ "sims") :
    fetch_available_slots ds loc allowed net = ([], []) := by
  have e1 : (("expo" : String) == loc) = false := beq_eq_false_iff_ne.mpr (Ne.symm h1)
  have e2 : (("sims" : String) == loc) = false := beq_eq_false_iff_ne.mpr (Ne.symm h2)
  simp [fetch_available_slots, facilityId, FACILITY_IDS, List.find?, e1, e2]

theorem C10_witness :
    (("katong" : String) ≠ "expo") ∧ (("katong" : String) ≠ "sims") ∧
    fetch_available_slots ("2026-10-13") ("katong") WEEKDAY_TIMES
      (fun _ => FetchOutcome.netError ("unreachable")) = ([], []) :=
  ⟨by decide, by decide,
    C10_unknown_location_no_request _ _ _ _ (by decide) (by decide)⟩

/-- C4: for every date string and known facility, if the outbound GET fails
with a network error / timeout, or returns a 4xx/5xx status, the fetcher
returns the empty availability mapping, surfaces no exception (the
embedding is a total function), and issues exactly the one request — no
retry (src/app.py lines 46-51). -/
theorem C4_fetch_failure_empty (ds loc fid : String) (allowed : List String)
    (net : HttpRequest → FetchOutcome)
    (hfid : facilityId loc = some fid)
    (hfail : (∃ msg, net ⟨ds, fid, "Asia/Singapore"⟩ = FetchOutcome.netError msg) ∨
      (∃ status slots, net ⟨ds, fid, "Asia/Singapore"⟩ =
          FetchOutcome.response status slots ∧ 400 ≤ status ∧ status < 600)) :
    fetch_available_slots ds loc allowed net =
      ([(⟨ds, fid, "Asia/Singapore"⟩ : HttpRequest)], []) := by
  unfold fetch_available_slots
  rw [hfid]
  rcases hfail with ⟨msg, hm⟩ | ⟨status, slots, hr, h4, h6⟩
  · simp [hm]
  · simp [hr, h4, h6]

theorem C4_witness :
    (facilityId ("expo") = some ("2967")) ∧
    fetch_available_slots ("2026-10-13") ("expo") WEEKDAY_TIMES
        (fun _ => FetchOutcome.netError ("connection timed out")) =
      ([(⟨"2026-10-13", "2967", "Asia/Singapore"⟩ : HttpRequest)], []) :=
  ⟨rfl, C4_fetch_failure_empty ("2026-10-13") ("expo") ("2967") WEEKDAY_TIMES
    (fun _ => FetchOutcome.netError ("connection timed out")) rfl
    (Or.inl ⟨"connection timed out", rfl⟩)⟩

/-- C9: on both the success path and the exception path, the `image` field
of the object `generate_report` returns is `None`; no input or fetch
outcome produces a non-null image (src/app.py lines 185-198). -/
theorem C9_image_always_none (today : Date) (nowStr : String)
    (net : HttpRequest → FetchOutcome) :
    (generate_report today nowStr net).image = none ∧
    ((handle_execute today nowStr net).1).image = none := by
  unfold handle_execute generate_report
  cases reportBody today nowStr net <;> simp

/-- C8: if report assembly raises, `generate_report` catches it at the top
level and still returns a result object whose message is the generic error
string carrying the exception text, with a `None` image, delivered by the
endpoint in the same success-style envelope with status 200 (src/app.py
lines 192-198 and 201-212). -/
theorem C8_top_level_catch (today : Date) (nowStr : String)
    (net : HttpRequest → FetchOutcome) (e : String)
    (h : reportBody today nowStr net = Except.error e) :
    generate_report today nowStr net =
      ⟨"An unexpected error occurred: " ++ e ++ "nnPlease check the logs.", none⟩ ∧
    containsRunB e.data (generate_report today nowStr net).message.data = true ∧
    handle_execute today nowStr net =
      (⟨"An unexpected error occurred: " ++ e ++ "nnPlease check the logs.", none⟩, 200) := by
  have hg : generate_report today nowStr net =
      ⟨"An unexpected error occurred: " ++ e ++ "nnPlease check the logs.", none⟩ := by
    unfold generate_report
    rw [h]
  refine ⟨hg, ?_, ?_⟩
  · rw [hg]
    exact containsRunB_sandwich ("An unexpected error occurred: ") e
      ("nnPlease check the logs.")
  · unfold handle_execute
    rw [hg]

theorem C8_witness :
    (reportBody ⟨9999, 12, 30⟩ ("now") (fun _ => FetchOutcome.netError ("x")) =
      Except.error ("time data a000-01-03 does not match format %Y-%m-%d")) ∧
    generate_report ⟨9999, 12, 30⟩ ("now") (fun _ => FetchOutcome.netError ("x")) =
      ⟨"An unexpected error occurred: time data a000-01-03 does not match format %Y-%m-%d" ++
        "nnPlease check the logs.", none⟩ := by
  have h : reportBody ⟨9999, 12, 30⟩ ("now") (fun _ => FetchOutcome.netError ("x")) =
      Except.error ("time data a000-01-03 does not match format %Y-%m-%d") := by rfl
  refine ⟨h, ?_⟩
  have := (C8_top_level_catch ⟨9999, 12, 30⟩ ("now")
    (fun _ => FetchOutcome.netError ("x")) _ h).1
  rw [this]
  rfl

/-- C3: for a successful fetch, a (court, time) pair appears in the result
mapping iff some parsed slot element carries exactly that court and
start-time label, the court is in the requested facility's known court set,
the time label is in the allowed-times set, and neither the blocked
attribute (`data-isBlocked == "1"`) nor the blocked CSS class
(`"blockedslot"`) is present (src/app.py lines 53-67). -/
theorem C3_inclusion_criterion (ds loc fid : String) (allowed : List String)
    (net : HttpRequest → FetchOutcome) (status : Nat) (slots : List SlotElem)
    (c t : String)
    (hfid : facilityId loc = some fid)
    (hnet : net ⟨ds, fid, "Asia/Singapore"⟩ = FetchOutcome.response status slots)
    (hok : ¬(400 ≤ status ∧ status < 600)) :
    t ∈ getTimes (fetch_available_slots ds loc allowed net).2 c ↔
      ∃ s ∈ slots, s.facility_name = some c ∧ s.starttime = some t ∧
        c ∈ LOCATION_COURTS loc ∧ t ∈ allowed ∧
        s.isBlocked ≠ some ("1") ∧ ("blockedslot" : String) ∉ s.classes := by
  have hsnd : (fetch_available_slots ds loc allowed net).2 =
      slots.foldl (stepSlot loc allowed) [] := by
    unfold fetch_available_slots
    rw [hfid]
    simp [hnet, hok]
  rw [hsnd, mem_getTimes_foldl]
  have hnil : t ∉ getTimes [] c := by simp [getTimes, List.find?]
  constructor
  · rintro (h | ⟨s, hs, h1, h2, h3⟩)
    · exact absurd h hnil
    · refine ⟨s, hs, h1, h2, ?_⟩
      obtain ⟨fn, st, bl, cl⟩ := s
      simp only [] at h1 h2
      subst h1 h2
      exact (slotIncludedB_iff loc allowed c t bl cl).mp h3
  · rintro ⟨s, hs, h1, h2, h3⟩
    refine Or.inr ⟨s, hs, h1, h2, ?_⟩
    obtain ⟨fn, st, bl, cl⟩ := s
    simp only [] at h1 h2
    subst h1 h2
    exact (slotIncludedB_iff loc allowed c t bl cl).mpr h3

theorem C3_witness :
    (facilityId ("expo") = some ("2967")) ∧ ¬(400 ≤ 200 ∧ 200 < 600) ∧
    ((("08:00 PM" : String) ∈ getTimes (fetch_available_slots ("2026-10-13") ("expo")
        WEEKDAY_TIMES (fun _ => FetchOutcome.response 200
          [⟨some ("A1"), some ("08:00 PM"), none, []⟩,
           ⟨some ("A1"), some ("07:00 PM"), some ("1"), []⟩,
           ⟨some ("A2"), some ("07:00 PM"), none, ["blockedslot"]⟩])).2 ("A1")) ↔
      ∃ s ∈ [(⟨some ("A1"), some ("08:00 PM"), none, []⟩ : SlotElem),
             ⟨some ("A1"), some ("07:00 PM"), some ("1"), []⟩,
             ⟨some ("A2"), some ("07:00 PM"), none, ["blockedslot"]⟩],
        s.facility_name = some ("A1") ∧ s.starttime = some ("08:00 PM") ∧
        ("A1" : String) ∈ LOCATION_COURTS ("expo") ∧
        ("08:00 PM" : String) ∈ WEEKDAY_TIMES ∧
        s.isBlocked ≠ some ("1") ∧ ("blockedslot" : String) ∉ s.classes) :=
  ⟨rfl, by decide,
    C3_inclusion_criterion ("2026-10-13") ("expo") ("2967") WEEKDAY_TIMES
      (fun _ => FetchOutcome.response 200
        [⟨some ("A1"), some ("08:00 PM"), none, []⟩,
         ⟨some ("A1"), some ("07:00 PM"), some ("1"), []⟩,
         ⟨some ("A2"), some ("07:00 PM"), none, ["blockedslot"]⟩])
      200 _ ("A1") ("08:00 PM") rfl rfl (by decide)⟩

/-- C5: when the availability mapping of a (date, facility) is empty at the
formatting stage, the report line for that date is the "No timeslots
found." line, and the mapping is empty in both cases: the fetch failed
with a network error, or it succeeded and every slot was filtered out
(src/app.py lines 46-51 and 117-128). -/
theorem C5_no_timeslots_line (ds loc fid : String) (allowed : List String)
    (net : HttpRequest → FetchOutcome) (d : Date)
    (hd : parseISO ds = Except.ok d)
    (hfid : facilityId loc = some fid)
    (hcase : (∃ msg, net ⟨ds, fid, "Asia/Singapore"⟩ = FetchOutcome.netError msg) ∨
      (∃ status slots, net ⟨ds, fid, "Asia/Singapore"⟩ =
          FetchOutcome.response status slots ∧
        ∀ s ∈ slots, slotIncludedB loc allowed s = false)) :
    fetchMap ds loc allowed net = [] ∧
    formatDateEntry ds (fetchMap ds loc allowed net) =
      Except.ok ("n❌ **" ++ renderDate d ++ "**: No timeslots found.") := by
  have hmap : fetchMap ds loc allowed net = [] := by
    unfold fetchMap fetch_available_slots
    rw [hfid]
    rcases hcase with ⟨msg, hm⟩ | ⟨status, slots, hr, hall⟩
    · simp [hm]
    · by_cases hst : 400 ≤ status ∧ status < 600
      · simp [hr, hst]
      · simp [hr, hst, foldl_stepSlot_id loc allowed slots hall]
  refine ⟨hmap, ?_⟩
  rw [hmap]
  simp [formatDateEntry, hd, uniqueTimes, sortedTimesE, mapME]

theorem C5_witness :
    (parseISO ("2026-10-14") = Except.ok ⟨2026, 10, 14⟩) ∧
    (facilityId ("expo") = some ("2967")) ∧
    fetchMap ("2026-10-14") ("expo") WEEKDAY_TIMES
        (fun _ => FetchOutcome.netError ("timeout")) = [] ∧
    formatDateEntry ("2026-10-14")
        (fetchMap ("2026-10-14") ("expo") WEEKDAY_TIMES
          (fun _ => FetchOutcome.netError ("timeout"))) =
      Except.ok ("n❌ **" ++ renderDate ⟨2026, 10, 14⟩ ++ "**: No timeslots found.") := by
  have h := C5_no_timeslots_line ("2026-10-14") ("expo") ("2967") WEEKDAY_TIMES
    (fun _ => FetchOutcome.netError ("timeout")) ⟨2026, 10, 14⟩ rfl rfl
    (Or.inl ⟨"timeout", rfl⟩)
  exact ⟨rfl, rfl, h.1, h.2⟩

/-- C6: the date partitioner produces exactly the 7 calendar dates strictly
after `today`; a date lands in the weekend list iff its day of week is
Saturday (5) or Sunday (6) and in the weekday list otherwise; and both
output lists are ascending as ISO strings under lexicographic (= calendar)
order (src/app.py lines 75-85).  The year bound keeps the 7-day window
inside `datetime.date`'s 4-digit years. -/
theorem C6_date_partitioner (today : Date) (hv : ValidDate today)
    (hy2 : today.year ≤ 9998) :
    ((partitionDates today).1 ++ (partitionDates today).2).Perm
      ((List.range' 1 7).map (fun i => toISO (addDays today i))) ∧
    (∀ i ∈ List.range' 1 7, dateLt today (addDays today i)) ∧
    (∀ i ∈ List.range' 1 7,
      (toISO (addDays today i) ∈ (partitionDates today).2 ↔
        (weekday (addDays today i) = 5 ∨ weekday (addDays today i) = 6)) ∧
      (toISO (addDays today i) ∈ (partitionDates today).1 ↔
        ¬(weekday (addDays today i) = 5 ∨ weekday (addDays today i) = 6))) ∧
    (partitionDates today).1.Pairwise (fun a b => lexLtB a.data b.data = true) ∧
    (partitionDates today).2.Pairwise (fun a b => lexLtB a.data b.data = true) := by
  have hy : ∀ i, i ≤ 7 → (addDays today i).year < 10000 := by
    intro i hi
    have := addDays_year_le today hv i hi
    omega
  have hvp : ∀ i, ValidDate (addDays today i) := addDays_valid today hv
  have hinj : ∀ i j, i ≤ 7 → j ≤ 7 →
      toISO (addDays today i) = toISO (addDays today j) → i = j := by
    intro i j hi hj he
    rcases Nat.lt_trichotomy i j with h | h | h
    · exact absurd he (toISO_ne_of_dateLt _ _ (hvp i) (hvp j) (hy i hi) (hy j hj)
        (addDays_strictMono today i j h))
    · exact h
    · exact absurd he.symm (toISO_ne_of_dateLt _ _ (hvp j) (hvp i) (hy j hj) (hy i hi)
        (addDays_strictMono today j i h))
  have hpw : ∀ p : Nat → Bool,
      (((List.range' 1 7).filter p).map
        (fun i => toISO (addDays today i))).Pairwise
        (fun a b => lexLtB a.data b.data = true) := by
    intro p
    rw [List.pairwise_map]
    have h0 : (List.range' 1 7).Pairwise (· < ·) := by decide
    refine (h0.filter p).imp_of_mem ?_
    intro i j hi hj hij
    have hi7 : i ≤ 7 := by
      have := (List.mem_filter.mp hi).1
      rw [List.mem_range'_1] at this
      omega
    have hj7 : j ≤ 7 := by
      have := (List.mem_filter.mp hj).1
      rw [List.mem_range'_1] at this
      omega
    exact isoLt_of_dateLt _ _ (hvp i) (hvp j) (hy i hi7) (hy j hj7)
      (addDays_strictMono today i j hij)
  refine ⟨?_, ?_, ?_, ?_, ?_⟩
  · rw [partitionDates_eq]
    exact filter_map_perm (fun i => toISO (addDays today i))
      (fun i => decide (5 ≤ weekday (addDays today i))) (List.range' 1 7)
  · intro i hi
    rw [List.mem_range'_1] at hi
    exact addDays_dateLt today i (by omega)
  · intro i hi
    have hi7 : i ≤ 7 := by
      rw [List.mem_range'_1] at hi
      omega
    have hw7 : weekday (addDays today i) < 7 := weekday_lt_7 _
    have hiff : (5 ≤ weekday (addDays today i)) ↔
        (weekday (addDays today i) = 5 ∨ weekday (addDays today i) = 6) := by
      omega
    constructor
    · rw [partitionDates_eq]
      simp only [List.mem_map, List.mem_filter]
      constructor
      · rintro ⟨j, ⟨hjmem, hjp⟩, hje⟩
        have hj7 : j ≤ 7 := by
          rw [List.mem_range'_1] at hjmem
          omega
        have hji : j = i := hinj j i hj7 hi7 hje
        subst hji
        rw [← hiff]
        simpa using hjp
      · intro hwk
        exact ⟨i, ⟨hi, by simpa using hiff.mpr hwk⟩, rfl⟩
    · rw [partitionDates_eq]
      simp only [List.mem_map, List.mem_filter]
      constructor
      · rintro ⟨j, ⟨hjmem, hjp⟩, hje⟩
        have hj7 : j ≤ 7 := by
          rw [List.mem_range'_1] at hjmem
          omega
        have hji : j = i := hinj j i hj7 hi7 hje
        subst hji
        rw [← hiff]
        simpa using hjp
      · intro hwk
        refine ⟨i, ⟨hi, ?_⟩, rfl⟩
        rw [← hiff] at hwk
        simpa using hwk
  · rw [partitionDates_eq]
    exact hpw _
  · rw [partitionDates_eq]
    exact hpw _

theorem C6_witness :
    ValidDate ⟨2026, 10, 12⟩ ∧ (⟨2026, 10, 12⟩ : Date).year ≤ 9998 ∧
    (((partitionDates ⟨2026, 10, 12⟩).1 ++ (partitionDates ⟨2026, 10, 12⟩).2).Perm
      ((List.range' 1 7).map (fun i => toISO (addDays ⟨2026, 10, 12⟩ i))) ∧
    (∀ i ∈ List.range' 1 7, dateLt ⟨2026, 10, 12⟩ (addDays ⟨2026, 10, 12⟩ i)) ∧
    (∀ i ∈ List.range' 1 7,
      (toISO (addDays ⟨2026, 10, 12⟩ i) ∈ (partitionDates ⟨2026, 10, 12⟩).2 ↔
        (weekday (addDays ⟨2026, 10, 12⟩ i) = 5 ∨
          weekday (addDays ⟨2026, 10, 12⟩ i) = 6)) ∧
      (toISO (addDays ⟨2026, 10, 12⟩ i) ∈ (partitionDates ⟨2026, 10, 12⟩).1 ↔
        ¬(weekday (addDays ⟨2026, 10, 12⟩ i) = 5 ∨
          weekday (addDays ⟨2026, 10, 12⟩ i) = 6))) ∧
    (partitionDates ⟨2026, 10, 12⟩).1.Pairwise
      (fun a b => lexLtB a.data b.data = true) ∧
    (partitionDates ⟨2026, 10, 12⟩).2.Pairwise
      (fun a b => lexLtB a.data b.data = true)) :=
  ⟨by decide, by decide, C6_date_partitioner ⟨2026, 10, 12⟩ (by decide) (by decide)⟩

/-- C7: for time labels drawn from the allowed weekday or weekend sets, the
formatter's sorted time-label list is ordered ascending by the time of day
obtained by parsing each label as a 12-hour clock time — not by string
lexical order: `"01:00 PM"` is lexically below `"11:00 AM"` yet sorts after
it (src/app.py lines 117-123). -/
theorem C7_chronological_order :
    (∀ l : List String, (∀ t ∈ l, t ∈ WEEKDAY_TIMES ∨ t ∈ WEEKEND_TIMES) →
      ∃ st, sortedTimesE l = Except.ok st ∧
        st.Pairwise (fun a b => ∀ ka kb, parseTime12 a = some ka →
          parseTime12 b = some kb → ka ≤ kb)) ∧
    lexLtB ("01:00 PM").data ("11:00 AM").data = true ∧
    sortedTimesE ["01:00 PM", "11:00 AM"] = Except.ok ["11:00 AM", "01:00 PM"] := by
  refine ⟨?_, by decide, by rfl⟩
  intro l hl
  apply sortedTimesE_ok_of_parse
  intro t ht
  have h1 : ∀ x ∈ WEEKDAY_TIMES, (parseTime12 x).isSome = true := by decide
  have h2 : ∀ x ∈ WEEKEND_TIMES, (parseTime12 x).isSome = true := by decide
  rcases hl t ht with h | h
  · exact h1 t h
  · exact h2 t h

theorem C7_witness :
    (∀ t ∈ (["11:00 AM", "07:00 PM"] : List String),
      t ∈ WEEKDAY_TIMES ∨ t ∈ WEEKEND_TIMES) ∧
    (∃ st, sortedTimesE ["11:00 AM", "07:00 PM"] = Except.ok st ∧
      st.Pairwise (fun a b => ∀ ka kb, parseTime12 a = some ka →
        parseTime12 b = some kb → ka ≤ kb)) :=
  ⟨by decide, C7_chronological_order.1 ["11:00 AM", "07:00 PM"] (by decide)⟩

/-- C1 counterexample: a (date, facility) whose availability mapping has
exactly one distinct time label across all courts produces the ordinary
available-timeslots line, not an "insufficient slots" line — no such case
exists anywhere in the formatter (src/app.py lines 117-128 have only the
✅ available-timeslots branch and the ❌ no-timeslots branch). -/
theorem C1_counterexample :
    uniqueTimes [("A1", ["08:00 PM"]), ("A2", ["08:00 PM"])] = ["08:00 PM"] ∧
    formatDateEntry ("2026-10-13") [("A1", ["08:00 PM"]), ("A2", ["08:00 PM"])] =
      Except.ok ("n✅ **13 Oct 2026 (Tue)**: Available timeslots: 08:00 PM") ∧
    containsRunB ("Available timeslots").data
      ("n✅ **13 Oct 2026 (Tue)**: Available timeslots: 08:00 PM").data = true :=
  ⟨rfl, rfl, rfl⟩

/-- C1 as amended: for every (date, facility) whose availability mapping
has exactly one distinct time label, the emitted line is the
available-timeslots line listing that single time; the formatter has no
separate "insufficient slots" case. -/
theorem C1_amended_single_time_line (ds : String) (d : Date)
    (m : List (String × List String)) (t : String) (k : Nat)
    (hd : parseISO ds = Except.ok d)
    (hu : uniqueTimes m = [t])
    (hp : parseTime12 t = some k) :
    formatDateEntry ds m =
      Except.ok ("n✅ **" ++ renderDate d ++ "**: Available timeslots: " ++ t) := by
  have hst : sortedTimesE [t] = Except.ok [t] := by
    simp [sortedTimesE, mapME, hp, sortByKey, insertByKey]
  simp [formatDateEntry, hd, hu, hst, joinSep]

theorem C1_witness :
    (parseISO ("2026-10-13") = Except.ok ⟨2026, 10, 13⟩) ∧
    (uniqueTimes [("A1", ["08:00 PM"]), ("A2", ["08:00 PM"])] = ["08:00 PM"]) ∧
    (parseTime12 ("08:00 PM") = some 1200) ∧
    formatDateEntry ("2026-10-13") [("A1", ["08:00 PM"]), ("A2", ["08:00 PM"])] =
      Except.ok ("n✅ **" ++ renderDate ⟨2026, 10, 13⟩ ++
        "**: Available timeslots: " ++ "08:00 PM") :=
  ⟨rfl, rfl, rfl,
    C1_amended_single_time_line ("2026-10-13") ⟨2026, 10, 13⟩
      [("A1", ["08:00 PM"]), ("A2", ["08:00 PM"])] ("08:00 PM") 1200 rfl rfl rfl⟩

/-- C2 counterexample: a weekend date (2026-10-17 is a Saturday,
`weekday = 5`) whose mapping has two distinct time labels produces a single
aggregated available-timeslots line; the weekend section contains no
per-court listing (court "A1" never appears in the output) and no A/B or
P/D sub-grouping exists anywhere in the formatter. -/
theorem C2_counterexample :
    weekday ⟨2026, 10, 17⟩ = 5 ∧
    uniqueTimes [("A1", ["07:00 PM"]), ("A2", ["09:00 PM"])] =
      ["07:00 PM", "09:00 PM"] ∧
    sectionEntries [(("2026-10-17"), [("A1", ["07:00 PM"]), ("A2", ["09:00 PM"])])] =
      Except.ok ["n✅ **17 Oct 2026 (Sat)**: Available timeslots: 07:00 PM, 09:00 PM"] ∧
    containsRunB ("A1").data
      ("n✅ **17 Oct 2026 (Sat)**: Available timeslots: 07:00 PM, 09:00 PM").data
      = false :=
  ⟨rfl, rfl, rfl, rfl⟩

/-- C2 as amended: for every (date, facility) whose mapping has two or more
distinct time labels, the emitted line — identical in form for weekend and
weekday dates, since all four report sections run the same per-date code —
is the single available-timeslots line listing all distinct times sorted
chronologically, with no per-court listing and no sub-grouping. -/
theorem C2_amended_aggregated_line (ds : String) (d : Date)
    (m : List (String × List String))
    (hd : parseISO ds = Except.ok d)
    (h2 : 2 ≤ (uniqueTimes m).length)
    (hp : ∀ t ∈ uniqueTimes m, (parseTime12 t).isSome = true) :
    ∃ st, sortedTimesE (uniqueTimes m) = Except.ok st ∧
      st.Pairwise (fun a b => ∀ ka kb, parseTime12 a = some ka →
        parseTime12 b = some kb → ka ≤ kb) ∧
      formatDateEntry ds m =
        Except.ok ("n✅ **" ++ renderDate d ++ "**: Available timeslots: " ++
          joinSep (", ") st) := by
  obtain ⟨st, hst, hpw⟩ := sortedTimesE_ok_of_parse _ hp
  refine ⟨st, hst, hpw, ?_⟩
  have hne : (uniqueTimes m).isEmpty = false := by
    cases hu : uniqueTimes m with
    | nil => rw [hu] at h2; simp at h2
    | cons a as => simp
  simp [formatDateEntry, hd, hst, hne]

theorem C2_witness :
    (parseISO ("2026-10-17") = Except.ok ⟨2026, 10, 17⟩) ∧
    (2 ≤ (uniqueTimes [("A1", ["07:00 PM"]), ("A2", ["09:00 PM"])]).length) ∧
    (∀ t ∈ uniqueTimes [("A1", ["07:00 PM"]), ("A2", ["09:00 PM"])],
      (parseTime12 t).isSome = true) ∧
    (∃ st, sortedTimesE (uniqueTimes [("A1", ["07:00 PM"]), ("A2", ["09:00 PM"])]) =
        Except.ok st ∧
      st.Pairwise (fun a b => ∀ ka kb, parseTime12 a = some ka →
        parseTime12 b = some kb → ka ≤ kb) ∧
      formatDateEntry ("2026-10-17") [("A1", ["07:00 PM"]), ("A2", ["09:00 PM"])] =
        Except.ok ("n✅ **" ++ renderDate ⟨2026, 10, 17⟩ ++
          "**: Available timeslots: " ++ joinSep (", ") st)) :=
  ⟨rfl, by decide, by decide,
    C2_amended_aggregated_line ("2026-10-17") ⟨2026, 10, 17⟩
      [("A1", ["07:00 PM"]), ("A2", ["09:00 PM"])] rfl (by decide) (by decide)⟩

end Scrapper
